import Mathlib

/-!
# Drive registry of src/drive.c

A shallow embedding of the drive list kept by `drive.c` (the list of
`struct ilm_hw_drive_node`), of the two lookups over it, of the node insertion,
of the list construction loop, of the block-name conversion and of the blkid
UUID read, followed by the properties established about them.

Conventions of the embedding:

* a C string is the list of its characters before the terminating NUL;
* a `uuid_t` (16 bytes) is the number those bytes spell, `uuid_compare`
  returning 0 exactly on equal values;
* `drive_list` is the list of the nodes in the order `list_for_each_entry`
  visits them; `list_add` (from `list.h`, the Linux list interface) links a new
  node right after the head, so a new node becomes the first one visited;
* `path_num` is the length of the list `path`; `drive.c` never compares it
  with `ILM_DRIVE_MAX_NUM`;
* the answers of the operating system and of libblkid are inputs.
-/

namespace Drive

/-- A C string without its terminating NUL. -/
abbrev cstr := List Char

/-- The 16 bytes of a `uuid_t`, read as one number. -/
abbrev uuid_t := Nat

/-- The all-zero UUID, what `memset(uuid, 0x0, sizeof(uuid_t))` leaves. -/
def uuid_null : uuid_t := 0

/-- The `basename` of glibc's `string.h` (`drive.c` includes `string.h` and
not `libgen.h`): the characters after the last slash, the whole string when it
has no slash. -/
def basename (path : cstr) : cstr :=
  path.rtakeWhile (fun c => c != '/')

/-- One `struct ilm_hw_drive_path`. -/
structure ilm_hw_drive_path where
  blk_path : cstr
  sg_path : cstr
  deriving DecidableEq

/-- One `struct ilm_hw_drive`: `path` holds the slots `path[0 .. path_num-1]`. -/
structure ilm_hw_drive where
  id : uuid_t
  path : List ilm_hw_drive_path
  deriving DecidableEq

/-- The field `path_num` of a drive. -/
def ilm_hw_drive.path_num (d : ilm_hw_drive) : Nat :=
  d.path.length

/-! ## ilm_scsi_get_first_sg -/

/-- Inner loop of `ilm_scsi_get_first_sg`: is there an `i < path_num` with
`strcmp(dev, basename(path[i].blk_path)) == 0`. -/
def first_sg_match (dev : cstr) : List ilm_hw_drive_path → Bool
  | [] => false
  | p :: rest => if dev = basename p.blk_path then true else first_sg_match dev rest

/-- Outer loop of `ilm_scsi_get_first_sg`: every node is visited, a node with
a matching path overwrites `found` (the `break` leaves the inner loop only). -/
def first_sg_walk (dev : cstr) : List ilm_hw_drive → Option ilm_hw_drive → Option ilm_hw_drive
  | [], found => found
  | pos :: rest, found =>
      first_sg_walk dev rest (if first_sg_match dev pos.path then some pos else found)

/-- The function `ilm_scsi_get_first_sg`: `none` is the NULL return, otherwise
the copy of `found->drive.path[0].sg_path`. -/
def ilm_scsi_get_first_sg (drive_list : List ilm_hw_drive) (dev : cstr) : Option cstr :=
  match first_sg_walk dev drive_list none with
  | none => none
  | some found =>
      match found.path with
      | [] => none
      | p0 :: _ => some p0.sg_path

/-! ## ilm_scsi_get_part_table_uuid -/

/-- Inner loop of `ilm_scsi_get_part_table_uuid`: is there an `i < path_num`
whose `blk_path` or `sg_path` has the same basename as `dev`. -/
def part_table_match (dev : cstr) : List ilm_hw_drive_path → Bool
  | [] => false
  | p :: rest =>
      if basename dev = basename p.blk_path then true
      else if basename dev = basename p.sg_path then true
      else part_table_match dev rest

/-- Outer loop of `ilm_scsi_get_part_table_uuid`. -/
def part_table_walk (dev : cstr) : List ilm_hw_drive → Option ilm_hw_drive → Option ilm_hw_drive
  | [], found => found
  | pos :: rest, found =>
      part_table_walk dev rest (if part_table_match dev pos.path then some pos else found)

/-- The function `ilm_scsi_get_part_table_uuid`: the return value and the
content of the caller's `id` afterwards (`id` is its content before). -/
def ilm_scsi_get_part_table_uuid (drive_list : List ilm_hw_drive) (dev : cstr) (id : uuid_t) :
    Int × uuid_t :=
  match part_table_walk dev drive_list none with
  | none => (-1, id)
  | some found => (0, found.id)

/-! ## ilm_scsi_add_new_node -/

/-- The three last statements of `ilm_scsi_add_new_node` on the found drive:
the pair is stored in slot `path[path_num]` and `path_num` is incremented.
No comparison with `ILM_DRIVE_MAX_NUM` is made. -/
def store_path (dev_node sg_node : cstr) (drive : ilm_hw_drive) : ilm_hw_drive :=
  { drive with path := drive.path ++ [{ blk_path := dev_node, sg_path := sg_node }] }

/-- The search loop of `ilm_scsi_add_new_node` followed by the store into the
found node: the first node whose id compares equal receives the pair; `none`
when the loop ends with `found == NULL`. -/
def add_to_found (dev_node sg_node : cstr) (id : uuid_t) :
    List ilm_hw_drive → Option (List ilm_hw_drive)
  | [] => none
  | pos :: rest =>
      if pos.id = id then some (store_path dev_node sg_node pos :: rest)
      else (add_to_found dev_node sg_node id rest).map (fun l => pos :: l)

/-- The function `ilm_scsi_add_new_node`: the return value and the drive list
afterwards. A node that is not found is allocated zeroed, given the id and
linked with `list_add`, then receives the pair as its slot 0. -/
def ilm_scsi_add_new_node (drive_list : List ilm_hw_drive) (dev_node sg_node : cstr)
    (id : uuid_t) : Int × List ilm_hw_drive :=
  match add_to_found dev_node sg_node id drive_list with
  | some l => (0, l)
  | none => (0, store_path dev_node sg_node { id := id, path := [] } :: drive_list)


/-- Every successive call of `ilm_scsi_add_new_node` for the triples
`(dev_node, sg_node, id)` of `ops`, in order, starting from `drive_list`. -/
def add_all (drive_list : List ilm_hw_drive) (ops : List (cstr × cstr × uuid_t)) :
    List ilm_hw_drive :=
  ops.foldl (fun l o => (ilm_scsi_add_new_node l o.1 o.2.1 o.2.2).2) drive_list

/-- The ids of the nodes of a drive list, in list order. -/
def drive_ids (drive_list : List ilm_hw_drive) : List uuid_t :=
  drive_list.map (fun d => d.id)

/-- A path of the drive has a block path whose basename is `dev`. -/
def has_blk_name (dev : cstr) (d : ilm_hw_drive) : Prop :=
  ∃ p ∈ d.path, basename p.blk_path = dev

/-- All the recorded paths of a drive list: node after node, slot after slot. -/
def all_paths (drive_list : List ilm_hw_drive) : List ilm_hw_drive_path :=
  drive_list.flatMap (fun d => d.path)

/-! ## ilm_read_blk_uuid and ilm_read_parttable_id -/

/-- What libblkid answers inside `ilm_read_blk_uuid`: whether
`blkid_new_probe_from_filename` gives a probe, the return value of
`blkid_probe_lookup_value(probe, "UUID", ...)`, and the value `uuid_parse`
stores for the string looked up (read only when the lookup returned 0). -/
structure blkid_uuid_answer where
  probe : Bool
  lookup_ret : Int
  parsed : uuid_t
  deriving DecidableEq

/-- The function `ilm_read_blk_uuid` (the branch without
`IDM_PTHREAD_EMULATION`): the return value and the content of the caller's
`uuid` afterwards (`uuid` is its content before). -/
def ilm_read_blk_uuid (a : blkid_uuid_answer) (uuid : uuid_t) : Int × uuid_t :=
  if a.probe = false then (-1, uuid)
  else
    let ret := a.lookup_ret
    if ret ≠ 0 then (ret, uuid_null) else (ret, a.parsed)

/-- What libblkid answers inside `ilm_read_parttable_id`: whether each of
`blkid_new_probe_from_filename`, `blkid_probe_get_partitions` and
`blkid_partlist_get_table` gives a non-NULL result, and the parsed id string
of `blkid_parttable_get_id` (`none` for NULL). -/
structure blkid_parttable_answer where
  probe : Bool
  partitions : Bool
  table : Bool
  table_id : Option uuid_t
  deriving DecidableEq

/-- The function `ilm_read_parttable_id` (the branch without
`IDM_PTHREAD_EMULATION`): the return value and the content of the caller's
`uuid` afterwards. -/
def ilm_read_parttable_id (a : blkid_parttable_answer) (uuid : uuid_t) : Int × uuid_t :=
  if a.probe = false then (-1, uuid)
  else if a.partitions = false then (-1, uuid)
  else if a.table = false then (-1, uuid)
  else
    match a.table_id with
    | none => (-1, uuid)
    | some id => (0, id)

/-! ## ilm_scsi_list_init -/

/-- What the operating system and libblkid answer for one selected entry of
`/sys/bus/scsi/devices` during `ilm_scsi_list_init`:
`block` is the list of names `ilm_scsi_block_node_select` accepts under
`<entry>/block` in `scandir` order (`none` when `scandir` fails);
`sg_folder`, `cwd` and `value` tell whether `ilm_scsi_change_sg_folder`,
`getcwd` and `ilm_scsi_get_value` succeed; `sg_node` is the path
`ilm_scsi_parse_sg_node` writes for the major:minor read (`none` when it
returns -1); `parttable` is the libblkid answer for the block node. -/
structure scsi_dir_entry where
  block : Option (List cstr)
  sg_folder : Bool
  cwd : Bool
  value : Bool
  sg_node : Option cstr
  parttable : blkid_parttable_answer
  deriving DecidableEq

/-- The function `ilm_scsi_find_block_node`: the return value (the number of
accepted names, -1 when `scandir` fails) and the static `blk_str`
afterwards, each accepted name having been copied over it in turn. -/
def ilm_scsi_find_block_node (blk_str : cstr) (block : Option (List cstr)) : Int × cstr :=
  match block with
  | none => (-1, blk_str)
  | some names => ((names.length : Int), names.foldl (fun _ name => name) blk_str)

/-- The variables `ilm_scsi_list_init` carries from one turn of its loop to
the next: the static `blk_str`, the local `uuid` and the drive list. -/
structure list_init_state where
  blk_str : cstr
  uuid : uuid_t
  drive_list : List ilm_hw_drive
  deriving DecidableEq

/-- The `for` loop of `ilm_scsi_list_init` over the selected entries; each
`continue` of the source is a recursive call on the remaining entries, the
`goto out` after a failed `ilm_scsi_add_new_node` ends the loop. The two
`snprintf` calls into `PATH_MAX` buffers do not return a negative value, so
their `goto out` is not taken. -/
def list_init_loop : List scsi_dir_entry → list_init_state → list_init_state
  | [], st => st
  | e :: rest, st =>
      let fb := ilm_scsi_find_block_node st.blk_str e.block
      let st1 : list_init_state := { st with blk_str := fb.2 }
      if fb.1 < 0 then list_init_loop rest st1
      else
        let dev_node : cstr := "/dev/".toList ++ st1.blk_str
        if e.sg_folder = false then list_init_loop rest st1
        else if e.cwd = false then list_init_loop rest st1
        else if e.value = false then list_init_loop rest st1
        else
          match e.sg_node with
          | none => list_init_loop rest st1
          | some sg_node =>
              let rp := ilm_read_parttable_id e.parttable st1.uuid
              let st2 : list_init_state := { st1 with uuid := rp.2 }
              if rp.1 < 0 then list_init_loop rest st2
              else
                let an := ilm_scsi_add_new_node st2.drive_list dev_node sg_node st2.uuid
                let st3 : list_init_state := { st2 with drive_list := an.2 }
                if an.1 < 0 then st3
                else list_init_loop rest st3

/-- The function `ilm_scsi_list_init`: the return value and the state left.
`blk_str` and `uuid` are the contents of the static buffer and of the
uninitialised local on entry; `namelist` is what `scandir` selects under
`/sys/bus/scsi/devices` (`none` when it fails). `INIT_LIST_HEAD` empties the
drive list first. -/
def ilm_scsi_list_init (blk_str : cstr) (uuid : uuid_t)
    (namelist : Option (List scsi_dir_entry)) : Int × list_init_state :=
  let st0 : list_init_state := { blk_str := blk_str, uuid := uuid, drive_list := [] }
  match namelist with
  | none => (-1, st0)
  | some entries => (0, list_init_loop entries st0)

/-- The entry of a bus device for which the scan finds the block node `name`
and the sg node `sg_node`, `parttable` being the libblkid answer for
`/dev/<name>`. -/
def scanned_entry (t : cstr × cstr × blkid_parttable_answer) : scsi_dir_entry :=
  { block := some [t.1], sg_folder := true, cwd := true, value := true,
    sg_node := some t.2.1, parttable := t.2.2 }

/-- The triple `ilm_scsi_list_init` hands to `ilm_scsi_add_new_node` for a
scanned pair, `none` when `ilm_read_parttable_id` fails on it. -/
def probed_pair (t : cstr × cstr × blkid_parttable_answer) : Option (cstr × cstr × uuid_t) :=
  if (ilm_read_parttable_id t.2.2 uuid_null).1 < 0 then none
  else some ("/dev/".toList ++ t.1, t.2.1, (ilm_read_parttable_id t.2.2 uuid_null).2)

/-- The scanned pairs whose partition table id is read, in scan order. -/
def probed_pairs (scan : List (cstr × cstr × blkid_parttable_answer)) :
    List (cstr × cstr × uuid_t) :=
  scan.filterMap probed_pair

/-! ## ilm_scsi_convert_blk_name -/

/-- Whether `strstr(hay, needle)` is non-NULL. -/
def strstr (hay needle : cstr) : Bool :=
  match hay with
  | [] => needle.isEmpty
  | c :: rest => needle.isPrefixOf (c :: rest) || strstr rest needle

/-- The loop `while ((i > 0) && isdigit(tmp[i-1])) i--;` started at `i`:
the value of `i` when it ends. -/
def skip_digits (tmp : cstr) : Nat → Nat
  | 0 => 0
  | i + 1 =>
      match tmp[i]? with
      | some c => if c.isDigit then skip_digits tmp i else i + 1
      | none => i + 1

/-- The function `ilm_scsi_convert_blk_name`; `none` is the NULL return.
`dmsetup` is the outcome of the `dmsetup deps` pipe, consulted only for a
name containing "/dev/mapper": `none` when `popen` or `fgets` fails, else
the values of `num` and `tmp` after the `sscanf`.
`strncpy` copies at most 128 characters: for a longer name the C buffer has no
terminator and the embedding keeps the 128 characters copied. -/
def ilm_scsi_convert_blk_name (blk_dev : cstr) (dmsetup : Option (Nat × cstr)) : Option cstr :=
  let tmp0 : cstr := blk_dev.take 128
  let resolved : Option cstr :=
    if strstr tmp0 "/dev/mapper".toList then
      match dmsetup with
      | none => none
      | some (num, name) => if num ≠ 1 then none else some name
    else some tmp0
  match resolved with
  | none => none
  | some tmp =>
      let i := tmp.length
      if i = 0 then none
      else
        let i := skip_digits tmp i
        let tmp := tmp.take i
        some (basename tmp)

/-! ## Lemmas on the lookups -/

theorem first_sg_match_iff (dev : cstr) (ps : List ilm_hw_drive_path) :
    first_sg_match dev ps = true ↔ ∃ p ∈ ps, basename p.blk_path = dev := by
  induction ps with
  | nil => simp [first_sg_match]
  | cons p rest ih =>
    unfold first_sg_match
    by_cases h : dev = basename p.blk_path
    · simp [h]
    · have h2 : ¬ basename p.blk_path = dev := fun e => h e.symm
      simp [h, h2, ih]

theorem first_sg_walk_none (dev : cstr) (l : List ilm_hw_drive) (found : Option ilm_hw_drive) :
    first_sg_walk dev l found = none ↔
      found = none ∧ ∀ d ∈ l, first_sg_match dev d.path = false := by
  induction l generalizing found with
  | nil => simp [first_sg_walk]
  | cons pos rest ih =>
    unfold first_sg_walk
    rw [ih]
    by_cases h : first_sg_match dev pos.path = true
    · simp [h]
    · simp [h]

theorem first_sg_walk_some (dev : cstr) (l : List ilm_hw_drive) (found : Option ilm_hw_drive)
    (d : ilm_hw_drive) (h : first_sg_walk dev l found = some d) :
    (d ∈ l ∧ first_sg_match dev d.path = true) ∨ found = some d := by
  induction l generalizing found with
  | nil => right; simpa [first_sg_walk] using h
  | cons pos rest ih =>
    unfold first_sg_walk at h
    rcases ih _ h with ⟨hm, hp⟩ | hf
    · left; exact ⟨List.mem_cons_of_mem _ hm, hp⟩
    · by_cases hc : first_sg_match dev pos.path = true
      · rw [if_pos hc] at hf
        cases hf
        left; exact ⟨List.mem_cons_self _ _, hc⟩
      · rw [if_neg hc] at hf
        right; exact hf

theorem get_first_sg_none_iff (drive_list : List ilm_hw_drive) (dev : cstr) :
    ilm_scsi_get_first_sg drive_list dev = none ↔
      ¬ ∃ d ∈ drive_list, has_blk_name dev d := by
  unfold ilm_scsi_get_first_sg
  cases hw : first_sg_walk dev drive_list none with
  | none =>
    rw [first_sg_walk_none] at hw
    simp only [true_iff]
    rintro ⟨d, hd, hp⟩
    have := hw.2 d hd
    rw [(first_sg_match_iff dev d.path).mpr hp] at this
    cases this
  | some found =>
    rcases first_sg_walk_some dev drive_list none found hw with ⟨hm, hp⟩ | hf
    · have hp2 := (first_sg_match_iff dev found.path).mp hp
      obtain ⟨p, hpm, hpe⟩ := hp2
      have hex : ∃ d ∈ drive_list, has_blk_name dev d := ⟨found, hm, p, hpm, hpe⟩
      cases hpath : found.path with
      | nil => rw [hpath] at hpm; cases hpm
      | cons p0 rest => simp [hex, hpath]
    · cases hf

/-! ## Lemmas on the insertion -/

theorem add_to_found_none_iff (dev_node sg_node : cstr) (id : uuid_t) (l : List ilm_hw_drive) :
    add_to_found dev_node sg_node id l = none ↔ id ∉ drive_ids l := by
  induction l with
  | nil => simp [add_to_found, drive_ids]
  | cons pos rest ih =>
    unfold add_to_found
    by_cases h : pos.id = id
    · simp [h, drive_ids]
    · have h2 : ¬ id = pos.id := fun e => h e.symm
      simp only [drive_ids] at ih
      simp [h, h2, drive_ids, ih]

theorem add_to_found_ids (dev_node sg_node : cstr) (id : uuid_t) (l l2 : List ilm_hw_drive)
    (h : add_to_found dev_node sg_node id l = some l2) : drive_ids l2 = drive_ids l := by
  induction l generalizing l2 with
  | nil => simp [add_to_found] at h
  | cons pos rest ih =>
    unfold add_to_found at h
    by_cases hc : pos.id = id
    · rw [if_pos hc] at h
      cases h
      simp [drive_ids, store_path]
    · rw [if_neg hc] at h
      cases hr : add_to_found dev_node sg_node id rest with
      | none => rw [hr] at h; cases h
      | some l3 =>
        rw [hr] at h
        cases h
        have := ih l3 hr
        simp only [drive_ids] at this
        simp [drive_ids, this]

theorem add_new_node_ids (drive_list : List ilm_hw_drive) (dev_node sg_node : cstr) (id : uuid_t) :
    (id ∈ drive_ids drive_list ∧
        drive_ids (ilm_scsi_add_new_node drive_list dev_node sg_node id).2 = drive_ids drive_list) ∨
      (id ∉ drive_ids drive_list ∧
        drive_ids (ilm_scsi_add_new_node drive_list dev_node sg_node id).2 =
          id :: drive_ids drive_list) := by
  unfold ilm_scsi_add_new_node
  cases hr : add_to_found dev_node sg_node id drive_list with
  | none =>
    right
    exact ⟨(add_to_found_none_iff dev_node sg_node id drive_list).mp hr, by simp [drive_ids, store_path]⟩
  | some l =>
    left
    refine ⟨?_, add_to_found_ids dev_node sg_node id drive_list l hr⟩
    by_contra hn
    rw [(add_to_found_none_iff dev_node sg_node id drive_list).mpr hn] at hr
    cases hr

theorem add_new_node_nodup (drive_list : List ilm_hw_drive) (dev_node sg_node : cstr) (id : uuid_t)
    (h : (drive_ids drive_list).Nodup) :
    (drive_ids (ilm_scsi_add_new_node drive_list dev_node sg_node id).2).Nodup := by
  rcases add_new_node_ids drive_list dev_node sg_node id with ⟨_, he⟩ | ⟨hn, he⟩
  · rw [he]; exact h
  · rw [he]; exact List.nodup_cons.mpr ⟨hn, h⟩

theorem add_all_nodup (ops : List (cstr × cstr × uuid_t)) (drive_list : List ilm_hw_drive)
    (h : (drive_ids drive_list).Nodup) : (drive_ids (add_all drive_list ops)).Nodup := by
  induction ops generalizing drive_list with
  | nil => simpa [add_all] using h
  | cons o rest ih =>
    simp only [add_all, List.foldl_cons]
    exact ih _ (add_new_node_nodup drive_list o.1 o.2.1 o.2.2 h)


/-! ## Lemmas on the partition-table lookup -/

theorem part_table_match_iff (dev : cstr) (ps : List ilm_hw_drive_path) :
    part_table_match dev ps = true ↔
      ∃ p ∈ ps, basename p.blk_path = basename dev ∨ basename p.sg_path = basename dev := by
  induction ps with
  | nil => simp [part_table_match]
  | cons p rest ih =>
    unfold part_table_match
    by_cases h1 : basename dev = basename p.blk_path
    · simp [h1]
    · by_cases h2 : basename dev = basename p.sg_path
      · simp [h2]
      · have h1b : ¬ basename p.blk_path = basename dev := fun e => h1 e.symm
        have h2b : ¬ basename p.sg_path = basename dev := fun e => h2 e.symm
        simp [h1, h2, h1b, h2b, ih]

theorem part_table_walk_none (dev : cstr) (l : List ilm_hw_drive) (found : Option ilm_hw_drive) :
    part_table_walk dev l found = none ↔
      found = none ∧ ∀ d ∈ l, part_table_match dev d.path = false := by
  induction l generalizing found with
  | nil => simp [part_table_walk]
  | cons pos rest ih =>
    unfold part_table_walk
    rw [ih]
    by_cases h : part_table_match dev pos.path = true
    · simp [h]
    · simp [h]

theorem get_part_table_uuid_miss (drive_list : List ilm_hw_drive) (dev : cstr) (id : uuid_t)
    (h : ∀ p ∈ all_paths drive_list,
      basename p.blk_path ≠ basename dev ∧ basename p.sg_path ≠ basename dev) :
    ilm_scsi_get_part_table_uuid drive_list dev id = (-1, id) := by
  have hw : part_table_walk dev drive_list none = none := by
    rw [part_table_walk_none]
    refine ⟨rfl, fun d hd => ?_⟩
    cases hm : part_table_match dev d.path with
    | false => rfl
    | true =>
      obtain ⟨p, hp, hor⟩ := (part_table_match_iff dev d.path).mp hm
      have hin : p ∈ all_paths drive_list := List.mem_flatMap.mpr ⟨d, hd, hp⟩
      rcases hor with e | e
      · exact absurd e (h p hin).1
      · exact absurd e (h p hin).2
  simp [ilm_scsi_get_part_table_uuid, hw]

theorem get_first_sg_miss (drive_list : List ilm_hw_drive) (dev : cstr)
    (h : ∀ p ∈ all_paths drive_list, basename p.blk_path ≠ dev) :
    ilm_scsi_get_first_sg drive_list dev = none := by
  rw [get_first_sg_none_iff]
  rintro ⟨d, hd, p, hp, e⟩
  exact h p (List.mem_flatMap.mpr ⟨d, hd, hp⟩) e

/-! ## The recorded paths after insertions -/

theorem add_to_found_paths (dev_node sg_node : cstr) (id : uuid_t) (l l2 : List ilm_hw_drive)
    (h : add_to_found dev_node sg_node id l = some l2) :
    (all_paths l2).Perm ({ blk_path := dev_node, sg_path := sg_node } :: all_paths l) := by
  induction l generalizing l2 with
  | nil => simp [add_to_found] at h
  | cons pos rest ih =>
    unfold add_to_found at h
    by_cases hc : pos.id = id
    · rw [if_pos hc] at h
      cases h
      simp only [all_paths, List.flatMap_cons, store_path, List.append_assoc,
        List.singleton_append]
      exact List.perm_middle
    · rw [if_neg hc] at h
      cases hr : add_to_found dev_node sg_node id rest with
      | none => rw [hr] at h; cases h
      | some l3 =>
        rw [hr] at h
        cases h
        have h3 := ih l3 hr
        simp only [all_paths, List.flatMap_cons] at h3 ⊢
        exact (List.Perm.append_left pos.path h3).trans List.perm_middle

theorem add_new_node_paths (drive_list : List ilm_hw_drive) (dev_node sg_node : cstr)
    (id : uuid_t) :
    (all_paths (ilm_scsi_add_new_node drive_list dev_node sg_node id).2).Perm
      ({ blk_path := dev_node, sg_path := sg_node } :: all_paths drive_list) := by
  unfold ilm_scsi_add_new_node
  cases hr : add_to_found dev_node sg_node id drive_list with
  | none => simp [all_paths, store_path]
  | some l => exact add_to_found_paths dev_node sg_node id drive_list l hr

theorem add_all_paths (ops : List (cstr × cstr × uuid_t)) (drive_list : List ilm_hw_drive) :
    (all_paths (add_all drive_list ops)).Perm
      (ops.map (fun o => ({ blk_path := o.1, sg_path := o.2.1 } : ilm_hw_drive_path)) ++
        all_paths drive_list) := by
  induction ops generalizing drive_list with
  | nil => simp [add_all]
  | cons o rest ih =>
    simp only [add_all, List.foldl_cons, List.map_cons, List.cons_append]
    have h1 := ih (ilm_scsi_add_new_node drive_list o.1 o.2.1 o.2.2).2
    simp only [add_all] at h1
    refine h1.trans ?_
    refine (List.Perm.append_left _ (add_new_node_paths drive_list o.1 o.2.1 o.2.2)).trans ?_
    exact List.perm_middle

theorem add_new_node_ret (drive_list : List ilm_hw_drive) (dev_node sg_node : cstr)
    (id : uuid_t) : (ilm_scsi_add_new_node drive_list dev_node sg_node id).1 = 0 := by
  unfold ilm_scsi_add_new_node
  cases add_to_found dev_node sg_node id drive_list <;> rfl

/-! ## The construction loop on scanned pairs -/

theorem read_parttable_id_cases (a : blkid_parttable_answer) :
    (∃ id, ∀ u, ilm_read_parttable_id a u = (0, id)) ∨
      (∀ u, ilm_read_parttable_id a u = (-1, u)) := by
  unfold ilm_read_parttable_id
  cases a with
  | mk probe partitions table table_id =>
    cases probe <;> cases partitions <;> cases table <;> cases table_id <;> simp

theorem list_init_loop_scanned (scan : List (cstr × cstr × blkid_parttable_answer))
    (st : list_init_state) :
    (list_init_loop (scan.map scanned_entry) st).drive_list =
      add_all st.drive_list (probed_pairs scan) := by
  induction scan generalizing st with
  | nil => simp [list_init_loop, probed_pairs, add_all]
  | cons t rest ih =>
    rcases read_parttable_id_cases t.2.2 with ⟨id, hid⟩ | hfail
    · have hp : probed_pair t = some ("/dev/".toList ++ t.1, t.2.1, id) := by
        simp [probed_pair, hid]
      simp only [List.map_cons, probed_pairs, List.filterMap_cons, hp, add_all, List.foldl_cons]
      unfold list_init_loop
      simp only [scanned_entry, ilm_scsi_find_block_node, hid, add_new_node_ret]
      simp only [List.length_singleton, List.foldl_cons, List.foldl_nil]
      have h1 : ¬ ((1 : Nat) : Int) < 0 := by decide
      have h0 : ¬ (0 : Int) < 0 := by decide
      simp only [h1, h0, if_false, Bool.true_eq_false]
      rw [ih]
      simp [probed_pairs, add_all]
    · have hp : probed_pair t = none := by
        simp [probed_pair, hfail]
      simp only [List.map_cons, probed_pairs, List.filterMap_cons, hp]
      unfold list_init_loop
      simp only [scanned_entry, ilm_scsi_find_block_node, hfail]
      simp only [List.length_singleton, List.foldl_cons, List.foldl_nil]
      have h1 : ¬ ((1 : Nat) : Int) < 0 := by decide
      have hm : ((-1 : Int) < 0) := by decide
      simp only [h1, hm, if_false, if_true, Bool.true_eq_false]
      rw [ih]
      simp [probed_pairs]

/-- An entry whose `block` directory has no accepted name is not skipped
(`ilm_scsi_find_block_node` returns 0, only a negative value is skipped): the
name left in `blk_str` by the entry before is used again. -/
theorem list_init_empty_block_dir :
    (ilm_scsi_list_init [] 0
        (some [scanned_entry ("sdb".toList, "/dev/sg1".toList,
                 { probe := true, partitions := true, table := true, table_id := some 1 }),
               { block := some [], sg_folder := true, cwd := true, value := true,
                 sg_node := some "/dev/sg2".toList,
                 parttable := { probe := true, partitions := true, table := true,
                                table_id := some 1 } }])).2.drive_list =
      [{ id := 1, path := [{ blk_path := "/dev/sdb".toList, sg_path := "/dev/sg1".toList },
                           { blk_path := "/dev/sdb".toList, sg_path := "/dev/sg2".toList }] }] := by
  decide

/-! ## Lemmas on the block-name conversion -/

theorem skip_digits_append (l r : cstr) :
    skip_digits (l ++ r) l.length = (l.rdropWhile Char.isDigit).length := by
  induction l using List.reverseRecOn generalizing r with
  | nil => simp [skip_digits]
  | append_singleton l c ih =>
    have hget : (l ++ [c] ++ r)[l.length]? = some c := by
      rw [List.append_assoc, List.getElem?_append_right (Nat.le_refl _)]
      simp
    rw [List.length_append, List.length_singleton]
    unfold skip_digits
    simp only [hget]
    by_cases hc : c.isDigit = true
    · rw [if_pos hc, List.rdropWhile_concat_pos _ _ _ hc, List.append_assoc]
      exact ih ([c] ++ r)
    · rw [if_neg hc, List.rdropWhile_concat_neg _ _ _ hc]
      simp

theorem take_skip_digits (tmp : cstr) :
    tmp.take (skip_digits tmp tmp.length) = tmp.rdropWhile Char.isDigit := by
  have h := skip_digits_append tmp []
  rw [List.append_nil] at h
  rw [h]
  exact (List.prefix_iff_eq_take.mp (List.rdropWhile_prefix _ tmp)).symm

theorem basename_concat (l : cstr) (c : Char) :
    basename (l ++ [c]) = if c = '/' then [] else basename l ++ [c] := by
  unfold basename
  by_cases h : c = '/'
  · rw [if_pos h, List.rtakeWhile_concat_neg]
    simp [h]
  · rw [if_neg h, List.rtakeWhile_concat_pos]
    simp [h]

theorem isDigit_ne_slash (c : Char) (h : c.isDigit = true) : c ≠ '/' := by
  intro e
  rw [e] at h
  exact absurd h (by decide)

theorem basename_rdropWhile (l : cstr) :
    basename (l.rdropWhile Char.isDigit) = (basename l).rdropWhile Char.isDigit := by
  induction l using List.reverseRecOn with
  | nil => simp [basename]
  | append_singleton l c ih =>
    by_cases hc : c.isDigit = true
    · rw [List.rdropWhile_concat_pos _ _ _ hc, basename_concat,
        if_neg (isDigit_ne_slash c hc), List.rdropWhile_concat_pos _ _ _ hc]
      exact ih
    · rw [List.rdropWhile_concat_neg _ _ _ hc, basename_concat]
      by_cases hs : c = '/'
      · rw [if_pos hs]; simp
      · rw [if_neg hs, List.rdropWhile_concat_neg _ _ _ hc]

theorem strstr_mapper_of_no_slash (hay : cstr) (h : '/' ∉ hay) :
    strstr hay "/dev/mapper".toList = false := by
  induction hay with
  | nil => decide
  | cons c rest ih =>
    have hc : ¬ c = '/' := fun e => h (by simp [e])
    have hr : '/' ∉ rest := fun m => h (List.mem_cons_of_mem _ m)
    have hc2 : ¬ '/' = c := fun e => hc e.symm
    unfold strstr
    rw [ih hr]
    simp [List.isPrefixOf, hc2]

theorem basename_of_no_slash (l : cstr) (h : '/' ∉ l) : basename l = l := by
  unfold basename
  rw [List.rtakeWhile_eq_self_iff]
  intro x hx
  have : x ≠ '/' := fun e => h (e ▸ hx)
  simpa using this

theorem convert_blk_name_direct (blk_dev : cstr) (dmsetup : Option (Nat × cstr))
    (hlen : blk_dev.length < 128) (hdirect : strstr blk_dev "/dev/mapper".toList = false)
    (hne : blk_dev ≠ []) :
    ilm_scsi_convert_blk_name blk_dev dmsetup =
      some ((basename blk_dev).rdropWhile Char.isDigit) := by
  have htake : blk_dev.take 128 = blk_dev := List.take_of_length_le (Nat.le_of_lt hlen)
  have hl : blk_dev.length ≠ 0 := fun e => hne (List.length_eq_zero.mp e)
  unfold ilm_scsi_convert_blk_name
  simp only [htake, hdirect, Bool.false_eq_true, if_false, hl, take_skip_digits,
    basename_rdropWhile]

theorem convert_blk_name_empty (dmsetup : Option (Nat × cstr)) :
    ilm_scsi_convert_blk_name [] dmsetup = none := by
  cases dmsetup <;> rfl

/-! ## Shared lemma: repeated insertion under one id -/

theorem add_all_replicate (dev_node sg_node : cstr) (id : uuid_t) (n : Nat)
    (ps : List ilm_hw_drive_path) :
    add_all [{ id := id, path := ps }] (List.replicate n (dev_node, sg_node, id)) =
      [{ id := id,
         path := ps ++ List.replicate n { blk_path := dev_node, sg_path := sg_node } }] := by
  induction n generalizing ps with
  | zero => simp [add_all]
  | succ n ih =>
    have hstep : (ilm_scsi_add_new_node [{ id := id, path := ps }] dev_node sg_node id).2 =
        [{ id := id, path := ps ++ [{ blk_path := dev_node, sg_path := sg_node }] }] := by
      simp [ilm_scsi_add_new_node, add_to_found, store_path]
    have h2 := ih (ps ++ [{ blk_path := dev_node, sg_path := sg_node }])
    simp only [add_all] at h2 ⊢
    rw [List.replicate_succ, List.foldl_cons, hstep, h2]
    simp [List.replicate_succ]

/-! ## The claims -/

/-- Claim C1: `ilm_scsi_get_first_sg` returns NULL exactly when no recorded
path of any drive has a block path whose basename is the name asked for;
when some path matches, it returns the sg path stored in slot 0 of a drive
that has a matching block path. That sg path need not be the one paired with
the matching block path: asked for "sdc" on a drive recorded as
(/dev/sdb, /dev/sg1), (/dev/sdc, /dev/sg2), it returns /dev/sg1. -/
theorem get_first_sg_spec (drive_list : List ilm_hw_drive) (dev : cstr) :
    (ilm_scsi_get_first_sg drive_list dev = none ↔
        ¬ ∃ d ∈ drive_list, ∃ p ∈ d.path, basename p.blk_path = dev) ∧
      ((∃ d ∈ drive_list, ∃ p ∈ d.path, basename p.blk_path = dev) →
        ∃ d ∈ drive_list, (∃ p ∈ d.path, basename p.blk_path = dev) ∧
          ∃ p0 rest, d.path = p0 :: rest ∧
            ilm_scsi_get_first_sg drive_list dev = some p0.sg_path) ∧
      ilm_scsi_get_first_sg
          [{ id := 1, path := [{ blk_path := "/dev/sdb".toList, sg_path := "/dev/sg1".toList },
                               { blk_path := "/dev/sdc".toList, sg_path := "/dev/sg2".toList }] }]
          "sdc".toList = some "/dev/sg1".toList := by
  refine ⟨get_first_sg_none_iff drive_list dev, ?_, by decide⟩
  intro hex
  cases hw : first_sg_walk dev drive_list none with
  | none =>
    have hnone : ilm_scsi_get_first_sg drive_list dev = none := by
      simp [ilm_scsi_get_first_sg, hw]
    exact absurd hex ((get_first_sg_none_iff drive_list dev).mp hnone)
  | some found =>
    rcases first_sg_walk_some dev drive_list none found hw with ⟨hm, hp⟩ | hf
    · obtain ⟨p, hpm, hpe⟩ := (first_sg_match_iff dev found.path).mp hp
      refine ⟨found, hm, ⟨p, hpm, hpe⟩, ?_⟩
      cases hpath : found.path with
      | nil => rw [hpath] at hpm; cases hpm
      | cons p0 rest =>
        exact ⟨p0, rest, rfl, by simp [ilm_scsi_get_first_sg, hw, hpath]⟩
    · cases hf

/-- Claim C2, evaluated where it fails: the list built from the scanned pairs
(sdb, /dev/sg1) with partition table id 1 and (sdc, /dev/sg1) with id 2 holds
the drive of id 2 before the drive of id 1, both have a path whose basename
is "sg1", and `ilm_scsi_get_part_table_uuid` asked for "sg1" returns the id 1
of the last of the two in list order, not the id 2 of the first. -/
theorem get_part_table_uuid_last_match :
    add_all [] [("/dev/sdb".toList, "/dev/sg1".toList, 1),
                ("/dev/sdc".toList, "/dev/sg1".toList, 2)] =
        [{ id := 2, path := [{ blk_path := "/dev/sdc".toList, sg_path := "/dev/sg1".toList }] },
         { id := 1, path := [{ blk_path := "/dev/sdb".toList, sg_path := "/dev/sg1".toList }] }] ∧
      part_table_match "sg1".toList
        [{ blk_path := "/dev/sdc".toList, sg_path := "/dev/sg1".toList }] = true ∧
      ilm_scsi_get_part_table_uuid
        (add_all [] [("/dev/sdb".toList, "/dev/sg1".toList, 1),
                     ("/dev/sdc".toList, "/dev/sg1".toList, 2)])
        "sg1".toList 0 = (0, 1) := by
  decide

/-- Claim C3: `ilm_scsi_add_new_node` keeps the ids of the drive list pairwise
distinct; every list obtained from the empty one by successive calls has
pairwise distinct ids; and a call leaves the ids of the nodes already in the
list as they are, adding at most the new id in front. -/
theorem add_new_node_unique_ids :
    (∀ (drive_list : List ilm_hw_drive) (dev_node sg_node : cstr) (id : uuid_t),
        (drive_ids drive_list).Nodup →
          (drive_ids (ilm_scsi_add_new_node drive_list dev_node sg_node id).2).Nodup) ∧
      (∀ ops : List (cstr × cstr × uuid_t), (drive_ids (add_all [] ops)).Nodup) ∧
      (∀ (drive_list : List ilm_hw_drive) (dev_node sg_node : cstr) (id : uuid_t),
        drive_ids (ilm_scsi_add_new_node drive_list dev_node sg_node id).2 = drive_ids drive_list ∨
          (id ∉ drive_ids drive_list ∧
            drive_ids (ilm_scsi_add_new_node drive_list dev_node sg_node id).2 =
              id :: drive_ids drive_list)) := by
  refine ⟨add_new_node_nodup, fun ops => add_all_nodup ops [] (by simp [drive_ids]), ?_⟩
  intro drive_list dev_node sg_node id
  rcases add_new_node_ids drive_list dev_node sg_node id with ⟨_, he⟩ | h
  · exact Or.inl he
  · exact Or.inr h

/-- Claim C4: two pairs (b1, s1) and (b2, s2) with distinct block basenames,
inserted with the same id into the empty list, leave exactly one drive, of
that id, with the paths (b1, s1), (b2, s2) in this order; and
`ilm_scsi_get_first_sg` asked for the basename of b1 or of b2 returns an sg
path (s1, hence a non-empty string as soon as s1 is one) that is among the sg
paths recorded for that drive. -/
theorem grouping_same_uuid (b1 s1 b2 s2 : cstr) (id : uuid_t)
    (hb : basename b1 ≠ basename b2) :
    add_all [] [(b1, s1, id), (b2, s2, id)] =
        [{ id := id, path := [{ blk_path := b1, sg_path := s1 },
                              { blk_path := b2, sg_path := s2 }] }] ∧
      (∀ dev, dev = basename b1 ∨ dev = basename b2 →
        ∃ s, ilm_scsi_get_first_sg (add_all [] [(b1, s1, id), (b2, s2, id)]) dev = some s ∧
          s ∈ [s1, s2] ∧ (s1 ≠ [] → s ≠ [])) := by
  have hreg : add_all [] [(b1, s1, id), (b2, s2, id)] =
      [{ id := id, path := [{ blk_path := b1, sg_path := s1 },
                            { blk_path := b2, sg_path := s2 }] }] := by
    simp [add_all, ilm_scsi_add_new_node, add_to_found, store_path]
  refine ⟨hreg, ?_⟩
  intro dev hdev
  rw [hreg]
  refine ⟨s1, ?_, by simp, fun h => h⟩
  rcases hdev with e | e
  · subst e
    simp [ilm_scsi_get_first_sg, first_sg_walk, first_sg_match]
  · subst e
    have hne : ¬ basename b2 = basename b1 := fun e => hb e.symm
    simp [ilm_scsi_get_first_sg, first_sg_walk, first_sg_match, hne]

/-- Witness of C4: the pairs (/dev/sdb, /dev/sg1) and (/dev/sdc, /dev/sg2)
under the id 7. -/
theorem grouping_same_uuid_witness :
    basename "/dev/sdb".toList ≠ basename "/dev/sdc".toList ∧
      add_all [] [("/dev/sdb".toList, "/dev/sg1".toList, 7),
                  ("/dev/sdc".toList, "/dev/sg2".toList, 7)] =
        [{ id := 7, path := [{ blk_path := "/dev/sdb".toList, sg_path := "/dev/sg1".toList },
                             { blk_path := "/dev/sdc".toList, sg_path := "/dev/sg2".toList }] }] :=
  ⟨by decide,
    (grouping_same_uuid "/dev/sdb".toList "/dev/sg1".toList "/dev/sdc".toList "/dev/sg2".toList 7
      (by decide)).1⟩

/-- Claim C5, where it fails: two bus entries that both report the block node
"sdb" (with the sg nodes /dev/sg1 and /dev/sg2, the partition table id 1
being read for both) leave a drive list in which two recorded paths have the
block path /dev/sdb. -/
theorem list_init_duplicate_blk_path :
    (ilm_scsi_list_init [] 0
        (some [scanned_entry ("sdb".toList, "/dev/sg1".toList,
                 { probe := true, partitions := true, table := true, table_id := some 1 }),
               scanned_entry ("sdb".toList, "/dev/sg2".toList,
                 { probe := true, partitions := true, table := true, table_id := some 1 })])).2.drive_list =
        [{ id := 1, path := [{ blk_path := "/dev/sdb".toList, sg_path := "/dev/sg1".toList },
                             { blk_path := "/dev/sdb".toList, sg_path := "/dev/sg2".toList }] }] ∧
      ¬ ((all_paths (ilm_scsi_list_init [] 0
        (some [scanned_entry ("sdb".toList, "/dev/sg1".toList,
                 { probe := true, partitions := true, table := true, table_id := some 1 }),
               scanned_entry ("sdb".toList, "/dev/sg2".toList,
                 { probe := true, partitions := true, table := true, table_id := some 1 })])).2.drive_list).map
          (fun p => p.blk_path)).Nodup := by
  decide

/-- Claim C5 as amended: for every sequence of scanned pairs and every
outcome of the partition-table reads, when the block paths of the pairs whose
read succeeds are pairwise distinct, no two recorded paths of the drive list
left by `ilm_scsi_list_init`, under one drive or under different drives, have
the same block path. -/
theorem list_init_distinct_blk_paths (blk_str : cstr) (uuid : uuid_t)
    (scan : List (cstr × cstr × blkid_parttable_answer))
    (hscan : ((probed_pairs scan).map (fun o => o.1)).Nodup) :
    ((all_paths (ilm_scsi_list_init blk_str uuid
        (some (scan.map scanned_entry))).2.drive_list).map (fun p => p.blk_path)).Nodup := by
  have hl : (ilm_scsi_list_init blk_str uuid (some (scan.map scanned_entry))).2.drive_list =
      add_all [] (probed_pairs scan) := by
    simp only [ilm_scsi_list_init]
    exact list_init_loop_scanned scan _
  rw [hl]
  have hperm := (add_all_paths (probed_pairs scan) []).map (fun p => p.blk_path)
  rw [hperm.nodup_iff]
  simpa [all_paths, List.map_map, Function.comp_def] using hscan

/-- Witness of the amended C5: the entries sdb (id 1), sdc (no partition
table) and sdd (id 1). -/
theorem list_init_distinct_blk_paths_witness :
    ((all_paths (ilm_scsi_list_init [] 0
        (some ([("sdb".toList, "/dev/sg1".toList,
                  ({ probe := true, partitions := true, table := true, table_id := some 1 } :
                    blkid_parttable_answer)),
                ("sdc".toList, "/dev/sg2".toList,
                  { probe := true, partitions := true, table := false, table_id := none }),
                ("sdd".toList, "/dev/sg3".toList,
                  { probe := true, partitions := true, table := true, table_id := some 1 })].map
            scanned_entry))).2.drive_list).map (fun p => p.blk_path)).Nodup :=
  list_init_distinct_blk_paths [] 0 _ (by decide)

/-- Claim C6, evaluated where it fails: whatever `ILM_DRIVE_MAX_NUM` is, on a
drive that already has `ILM_DRIVE_MAX_NUM` paths `ilm_scsi_add_new_node`
returns 0 and stores the pair in slot `path[ILM_DRIVE_MAX_NUM]`, leaving
`path_num` at `ILM_DRIVE_MAX_NUM + 1`; the function returns 0 on every input;
and `ILM_DRIVE_MAX_NUM + 1` calls with one id from the empty list give a drive
with more than `ILM_DRIVE_MAX_NUM` paths. -/
theorem add_new_node_no_capacity_check (ILM_DRIVE_MAX_NUM : Nat) (dev_node sg_node : cstr)
    (id : uuid_t) (p : ilm_hw_drive_path) :
    ilm_scsi_add_new_node [{ id := id, path := List.replicate ILM_DRIVE_MAX_NUM p }]
        dev_node sg_node id =
        (0, [{ id := id, path := List.replicate ILM_DRIVE_MAX_NUM p ++
                                  [{ blk_path := dev_node, sg_path := sg_node }] }]) ∧
      (∀ d ∈ (ilm_scsi_add_new_node [{ id := id, path := List.replicate ILM_DRIVE_MAX_NUM p }]
          dev_node sg_node id).2, d.path_num = ILM_DRIVE_MAX_NUM + 1) ∧
      (∀ (drive_list : List ilm_hw_drive) (dev sg : cstr) (u : uuid_t),
        (ilm_scsi_add_new_node drive_list dev sg u).1 = 0) ∧
      (∀ d ∈ add_all [] (List.replicate (ILM_DRIVE_MAX_NUM + 1) (dev_node, sg_node, id)),
        ILM_DRIVE_MAX_NUM < d.path_num) := by
  have h1 : ilm_scsi_add_new_node [{ id := id, path := List.replicate ILM_DRIVE_MAX_NUM p }]
      dev_node sg_node id =
      (0, [{ id := id, path := List.replicate ILM_DRIVE_MAX_NUM p ++
                                [{ blk_path := dev_node, sg_path := sg_node }] }]) := by
    simp [ilm_scsi_add_new_node, add_to_found, store_path]
  have h2 : add_all [] (List.replicate (ILM_DRIVE_MAX_NUM + 1) (dev_node, sg_node, id)) =
      [{ id := id, path := [{ blk_path := dev_node, sg_path := sg_node }] ++
          List.replicate ILM_DRIVE_MAX_NUM { blk_path := dev_node, sg_path := sg_node } }] := by
    have hfirst : (ilm_scsi_add_new_node [] dev_node sg_node id).2 =
        [{ id := id, path := [{ blk_path := dev_node, sg_path := sg_node }] }] := by
      simp [ilm_scsi_add_new_node, add_to_found, store_path]
    have h3 := add_all_replicate dev_node sg_node id ILM_DRIVE_MAX_NUM
      [{ blk_path := dev_node, sg_path := sg_node }]
    simp only [add_all] at h3 ⊢
    rw [List.replicate_succ, List.foldl_cons, hfirst, h3]
  refine ⟨h1, ?_, add_new_node_ret, ?_⟩
  · intro d hd
    rw [h1] at hd
    simp only [List.mem_singleton] at hd
    subst hd
    simp [ilm_hw_drive.path_num]
  · intro d hd
    rw [h2] at hd
    simp only [List.mem_singleton] at hd
    subst hd
    simp [ilm_hw_drive.path_num]

/-- Claim C7: for a name of fewer than 128 characters that does not contain
"/dev/mapper" and has a character that is not a decimal digit,
`ilm_scsi_convert_blk_name` returns the basename of the name without its
trailing decimal digits; the name returned does not end in a decimal digit;
when the name has no slash the name returned is not empty and is converted to
itself; "sda1" gives "sda" and "sda" gives "sda". -/
theorem convert_blk_name_strips_digits (blk_dev : cstr) (dmsetup : Option (Nat × cstr))
    (hlen : blk_dev.length < 128) (hdirect : strstr blk_dev "/dev/mapper".toList = false)
    (hchar : ∃ c ∈ blk_dev, c.isDigit = false) :
    ilm_scsi_convert_blk_name blk_dev dmsetup =
        some ((basename blk_dev).rdropWhile Char.isDigit) ∧
      (∀ r, ilm_scsi_convert_blk_name blk_dev dmsetup = some r →
        ∀ h : r ≠ [], (r.getLast h).isDigit = false) ∧
      ('/' ∉ blk_dev →
        (basename blk_dev).rdropWhile Char.isDigit ≠ [] ∧
          ilm_scsi_convert_blk_name ((basename blk_dev).rdropWhile Char.isDigit) dmsetup =
            some ((basename blk_dev).rdropWhile Char.isDigit)) ∧
      ilm_scsi_convert_blk_name "sda1".toList dmsetup = some "sda".toList ∧
      ilm_scsi_convert_blk_name "sda".toList dmsetup = some "sda".toList := by
  have hne : blk_dev ≠ [] := by
    obtain ⟨c, hc, _⟩ := hchar
    exact List.ne_nil_of_mem hc
  have hres := convert_blk_name_direct blk_dev dmsetup hlen hdirect hne
  refine ⟨hres, ?_, ?_, ?_, ?_⟩
  · intro r hr h
    rw [hres] at hr
    cases hr
    have := List.rdropWhile_last_not Char.isDigit (basename blk_dev) h
    simpa using this
  · intro hslash
    rw [basename_of_no_slash blk_dev hslash]
    have hpre : blk_dev.rdropWhile Char.isDigit <+: blk_dev := List.rdropWhile_prefix _ _
    have hrne : blk_dev.rdropWhile Char.isDigit ≠ [] := by
      intro e
      obtain ⟨c, hc, hd⟩ := hchar
      have := (List.rdropWhile_eq_nil_iff.mp e) c hc
      rw [hd] at this
      cases this
    have hrslash : '/' ∉ blk_dev.rdropWhile Char.isDigit := fun m => hslash (hpre.subset m)
    refine ⟨hrne, ?_⟩
    rw [convert_blk_name_direct _ dmsetup (Nat.lt_of_le_of_lt hpre.length_le hlen)
      (strstr_mapper_of_no_slash _ hrslash) hrne, basename_of_no_slash _ hrslash,
      List.rdropWhile_idempotent]
  · rw [convert_blk_name_direct _ dmsetup (by decide) (by decide) (by decide)]
    decide
  · rw [convert_blk_name_direct _ dmsetup (by decide) (by decide) (by decide)]
    decide

/-- Witness of C7: the name /dev/sdb12 is converted to sdb. -/
theorem convert_blk_name_strips_digits_witness :
    ilm_scsi_convert_blk_name "/dev/sdb12".toList none = some "sdb".toList :=
  (convert_blk_name_strips_digits "/dev/sdb12".toList none (by decide) (by decide)
    (by decide)).1.trans (by decide)

/-- Claim C8, where it fails: the name "123" does not contain "/dev/mapper",
is empty once its trailing digits are stripped, and `ilm_scsi_convert_blk_name`
does not return NULL for it: it returns the empty name. -/
theorem convert_blk_name_all_digits :
    strstr "123".toList "/dev/mapper".toList = false ∧
      "123".toList.rdropWhile Char.isDigit = [] ∧
      ilm_scsi_convert_blk_name "123".toList none = some [] := by
  decide

/-- Claim C8 as amended: for a name of fewer than 128 characters that does
not contain "/dev/mapper", `ilm_scsi_convert_blk_name` returns NULL exactly
when the name is empty (the test is made before the digits are stripped); a
non-empty name is converted to its basename without trailing digits, which is
the empty name exactly when the basename has only decimal digits. -/
theorem convert_blk_name_null_iff (blk_dev : cstr) (dmsetup : Option (Nat × cstr))
    (hlen : blk_dev.length < 128) (hdirect : strstr blk_dev "/dev/mapper".toList = false) :
    (ilm_scsi_convert_blk_name blk_dev dmsetup = none ↔ blk_dev = []) ∧
      (blk_dev ≠ [] → ilm_scsi_convert_blk_name blk_dev dmsetup =
        some ((basename blk_dev).rdropWhile Char.isDigit)) ∧
      (ilm_scsi_convert_blk_name blk_dev dmsetup = some [] ↔
        blk_dev ≠ [] ∧ ∀ c ∈ basename blk_dev, c.isDigit = true) := by
  by_cases hne : blk_dev = []
  · subst hne
    simp [convert_blk_name_empty]
  · have hres := convert_blk_name_direct blk_dev dmsetup hlen hdirect hne
    refine ⟨?_, fun _ => hres, ?_⟩
    · simp [hres, hne]
    · rw [hres]
      simp [hne, List.rdropWhile_eq_nil_iff]

/-- Witness of the amended C8: the name /dev/42 is converted to the empty
name, not to NULL. -/
theorem convert_blk_name_null_iff_witness :
    ilm_scsi_convert_blk_name "/dev/42".toList none = some [] :=
  (convert_blk_name_null_iff "/dev/42".toList none (by decide) (by decide)).2.2.mpr
    ⟨by decide, by decide⟩

/-- Claim C9: for every sequence of scanned pairs and every outcome of the
partition-table reads, `ilm_scsi_list_init` returns 0 and leaves the drive
list obtained by calling `ilm_scsi_add_new_node`, in scan order, for exactly
the pairs whose read succeeds; the recorded paths are those pairs and no
other; and a name that is the basename of no block path (for
`ilm_scsi_get_part_table_uuid`: of no block or sg path) of a pair whose read
succeeds is not found by either lookup, the caller's id being left as it is. -/
theorem list_init_skips_failed_probes (blk_str : cstr) (uuid : uuid_t)
    (scan : List (cstr × cstr × blkid_parttable_answer)) :
    (ilm_scsi_list_init blk_str uuid (some (scan.map scanned_entry))).1 = 0 ∧
      (ilm_scsi_list_init blk_str uuid (some (scan.map scanned_entry))).2.drive_list =
        add_all [] (probed_pairs scan) ∧
      (all_paths (ilm_scsi_list_init blk_str uuid
          (some (scan.map scanned_entry))).2.drive_list).Perm
        ((probed_pairs scan).map
          (fun o => ({ blk_path := o.1, sg_path := o.2.1 } : ilm_hw_drive_path))) ∧
      (∀ dev : cstr, (∀ o ∈ probed_pairs scan, basename o.1 ≠ dev) →
        ilm_scsi_get_first_sg
          (ilm_scsi_list_init blk_str uuid (some (scan.map scanned_entry))).2.drive_list dev =
            none) ∧
      (∀ (dev : cstr) (id : uuid_t),
        (∀ o ∈ probed_pairs scan,
          basename o.1 ≠ basename dev ∧ basename o.2.1 ≠ basename dev) →
        ilm_scsi_get_part_table_uuid
          (ilm_scsi_list_init blk_str uuid (some (scan.map scanned_entry))).2.drive_list dev id =
            (-1, id)) := by
  have hl : (ilm_scsi_list_init blk_str uuid (some (scan.map scanned_entry))).2.drive_list =
      add_all [] (probed_pairs scan) := by
    simp only [ilm_scsi_list_init]
    exact list_init_loop_scanned scan _
  have hperm : (all_paths (add_all [] (probed_pairs scan))).Perm
      ((probed_pairs scan).map
        (fun o => ({ blk_path := o.1, sg_path := o.2.1 } : ilm_hw_drive_path))) := by
    have := add_all_paths (probed_pairs scan) []
    simpa [all_paths] using this
  refine ⟨rfl, hl, ?_, ?_, ?_⟩
  · rw [hl]; exact hperm
  · intro dev hdev
    rw [hl]
    apply get_first_sg_miss
    intro p hp
    obtain ⟨o, ho, rfl⟩ := List.mem_map.mp (hperm.mem_iff.mp hp)
    exact hdev o ho
  · intro dev id hdev
    rw [hl]
    apply get_part_table_uuid_miss
    intro p hp
    obtain ⟨o, ho, rfl⟩ := List.mem_map.mp (hperm.mem_iff.mp hp)
    exact hdev o ho

/-- Claim C10, where it fails: the probe is opened, the lookup of "UUID"
returns -1; `ilm_read_blk_uuid` stores the all-zero UUID and returns -1, the
value it also returns when the probe cannot be opened. -/
theorem read_blk_uuid_lookup_failure :
    ilm_read_blk_uuid { probe := true, lookup_ret := -1, parsed := 5 } 7 = (-1, uuid_null) ∧
      ilm_read_blk_uuid { probe := false, lookup_ret := 0, parsed := 5 } 7 = (-1, 7) := by
  decide

/-- Claim C10 as amended: when the probe is opened and the lookup of "UUID"
returns a non-zero value, `ilm_read_blk_uuid` stores the all-zero UUID and
returns that non-zero value; it returns 0 exactly when the probe is opened and
the lookup returns 0. -/
theorem read_blk_uuid_lookup_miss (a : blkid_uuid_answer) (uuid : uuid_t)
    (hprobe : a.probe = true) (hmiss : a.lookup_ret ≠ 0) :
    ilm_read_blk_uuid a uuid = (a.lookup_ret, uuid_null) ∧
      (ilm_read_blk_uuid a uuid).1 ≠ 0 ∧
      (∀ (b : blkid_uuid_answer) (v : uuid_t),
        (ilm_read_blk_uuid b v).1 = 0 ↔ b.probe = true ∧ b.lookup_ret = 0) := by
  have h1 : ilm_read_blk_uuid a uuid = (a.lookup_ret, uuid_null) := by
    simp [ilm_read_blk_uuid, hprobe, hmiss]
  refine ⟨h1, by rw [h1]; exact hmiss, ?_⟩
  intro b v
  unfold ilm_read_blk_uuid
  cases hb : b.probe with
  | false => simp
  | true =>
    by_cases hr : b.lookup_ret = 0
    · simp [hr]
    · simp [hr]

/-- Witness of the amended C10: the probe is opened and the lookup returns -1. -/
theorem read_blk_uuid_lookup_miss_witness :
    ilm_read_blk_uuid { probe := true, lookup_ret := -1, parsed := 9 } 3 = (-1, uuid_null) :=
  (read_blk_uuid_lookup_miss { probe := true, lookup_ret := -1, parsed := 9 } 3 rfl
    (by decide)).1

end Drive
